import Mathlib

/-!
Shallow embedding of the Recursive-Segmented-Generation tool (`src/rsg.ts`,
a Deno/TypeScript script).  The script prompts an LLM service for a project
file listing, then for each listed file drafts content, audits it in a loop
until the service answers "approved", and writes the approved content to
disk.

The remote completion service is modelled as an oracle: a list of response
strings consumed in call order.  The filesystem is modelled as an
association list of (path, content) pairs with the most recent write at the
head.  JavaScript strings are Lean `String`s; single-character
`String.prototype.split` is embedded as a character-list split with the same
semantics, `trim` as dropping whitespace from both ends, `toLowerCase` as
the ASCII case map (the inputs of interest here are ASCII), and
`String.prototype.includes` as list-infix search.
-/

namespace RSG

/-- JS `s.split(sep)` for a single-character separator, on character lists:
`"".split(c) = [""]`, and every occurrence of `c` opens a new segment. -/
def splitOnChar (c : Char) : List Char → List (List Char)
  | [] => [[]]
  | x :: xs =>
    match splitOnChar c xs with
    | [] => if x = c then [[], []] else [[x]]
    | h :: t => if x = c then [] :: h :: t else (x :: h) :: t

/-- `parts.join(sep)` for a single-character separator: the inverse of
`splitOnChar` on its output. -/
def joinWithChar (c : Char) : List (List Char) → List Char
  | [] => []
  | [l] => l
  | l :: ls => l ++ c :: joinWithChar c ls

/-- JS `String.prototype.trim`: drop whitespace from both ends. -/
def jsTrim (l : List Char) : List Char :=
  ((l.dropWhile Char.isWhitespace).reverse.dropWhile Char.isWhitespace).reverse

/-- JS `String.prototype.toLowerCase`, restricted to its ASCII action
(every string the embedded claims inspect is ASCII). -/
def jsToLower (s : String) : String := String.mk (s.data.map Char.toLower)

/-- JS `hay.includes(needle)`: substring search. -/
def jsIncludes (hay needle : String) : Bool := decide (needle.data <:+: hay.data)

/-- `src/rsg.ts` 92-95:
```
function getBacktipsContent(content: string) {
  const backtipsContentRegex = /```.*?^```/gms;
  return backtipsContentRegex.exec(content)?.[1] || content;
}
```
The regex `/```.*?^```/gms` has no capturing group, so the match array
returned by `exec` has entries only at index 0 (the full match); index 1 is
`undefined` whether or not the regex matches.  Capture group 1 of the exec
result is therefore `none` for every input. -/
def backtipsExecGroup1 (_content : String) : Option String := none

/-- `src/rsg.ts` 92-95 (`getBacktipsContent`): `exec(content)?.[1]` is
`undefined` on every input (see `backtipsExecGroup1`), so the
`|| content` fallback always yields `content` itself. -/
def getBacktipsContent (content : String) : String :=
  (backtipsExecGroup1 content).getD content

/-- An HTTP response of the completion endpoint as `callGPT4` consumes it:
its `ok` flag, its raw body text (read when `ok` is false), and
`data.choices[0].message.content` of the parsed JSON body (read when `ok`
is true). -/
structure HttpResponse where
  ok : Bool
  body : String
  choiceContent : String
deriving DecidableEq

/-- `src/rsg.ts` 100-121 (`callGPT4`): on a non-ok response the function
throws `Error("Error calling the API: " + errorText)` where `errorText` is
the response body; on an ok response it returns
`data.choices[0].message.content`.  The thrown error is modelled as
`Except.error` carrying the message string. -/
def callGPT4 (response : HttpResponse) : Except String String :=
  if response.ok then Except.ok response.choiceContent
  else Except.error ("Error calling the API: " ++ response.body)

/-- One entry of the parsed project structure (`parseStructureText`). -/
structure FileSpec where
  filename : String
  description : String
deriving DecidableEq

/-- The body of the `for` loop of `parseStructureText` (`src/rsg.ts`
159-168) for one line: split the line on `":"`; when there are at least two
segments, the first segment trimmed is the filename and the remaining
segments rejoined with `":"` and trimmed are the description; a record is
kept only when both are non-empty (JS truthiness of a string). -/
def parseLine (line : List Char) : Option FileSpec :=
  match splitOnChar ':' line with
  | p :: rest =>
    if rest.length ≥ 1 then
      if jsTrim p ≠ [] ∧ jsTrim (joinWithChar ':' rest) ≠ [] then
        some ⟨String.mk (jsTrim p), String.mk (jsTrim (joinWithChar ':' rest))⟩
      else none
    else none
  | [] => none

/-- `src/rsg.ts` 154-171 (`parseStructureText`): split the text into lines,
keep the lines that are non-blank after trimming, and collect the records
`parseLine` yields. -/
def parseStructureText (text : String) : List FileSpec :=
  ((splitOnChar '\n' text.data).filter
    (fun line => jsTrim line ≠ [])).filterMap parseLine

/-- `src/rsg.ts` 245: the audit loop's approval test,
`auditResponse.toLowerCase().includes("approved")`. -/
def containsApproved (response : String) : Bool :=
  jsIncludes (jsToLower response) "approved"

/-- Outcome of the audit loop: how many audit responses it consumed and the
candidate content in flight when approval arrived. -/
structure AuditResult where
  rounds : Nat
  content : String
deriving DecidableEq

/-- `src/rsg.ts` 224-251, the `while (!approved)` loop of
`processFileNode`, driven by the oracle's remaining audit responses.  Each
round calls `callGPT4` on the audit prompt; if the lower-cased response
contains `"approved"` the loop stops with the current candidate, otherwise
the response run through `getBacktipsContent` becomes the new candidate.
`none` models an exhausted oracle: the real loop would keep calling the
service (it has no round cap). -/
def auditLoop (fileContent : String) : List String → Option AuditResult
  | [] => none
  | r :: rs =>
    if containsApproved r then some ⟨1, fileContent⟩
    else
      match auditLoop (getBacktipsContent r) rs with
      | some res => some ⟨res.rounds + 1, res.content⟩
      | none => none

end RSG

namespace DenoPath

/-- The `".."` action of `resolveSegs` on the resolved stack: pop the
previous real segment; at the top (or over an already-kept `".."`) keep a
`".."` only for relative paths (`allowAboveRoot`). -/
def popParent (allowAboveRoot : Bool) : List (List Char) → List (List Char)
  | [] => if allowAboveRoot then [['.', '.']] else []
  | top :: acc' =>
    if top = ['.', '.'] then
      (if allowAboveRoot then ['.', '.'] :: top :: acc' else top :: acc')
    else acc'

/-- Deno `std/path` posix `normalizeString`, per-segment: empty and `"."`
segments are dropped, `".."` pops the previous real segment, and is kept
(stacked) only when `allowAboveRoot` holds (relative paths).  `acc` holds
the already-resolved segments in reverse. -/
def resolveSegs (allowAboveRoot : Bool) :
    List (List Char) → List (List Char) → List (List Char)
  | acc, [] => acc.reverse
  | acc, seg :: rest =>
    if seg = [] ∨ seg = ['.'] then resolveSegs allowAboveRoot acc rest
    else if seg = ['.', '.'] then
      resolveSegs allowAboveRoot (popParent allowAboveRoot acc) rest
    else resolveSegs allowAboveRoot (seg :: acc) rest

/-- Deno `std/path` posix `normalize` on the character list of the path:
resolve `"."` and `".."` segments, keep a leading `/` (absolute) and a
trailing `/`, and return `"."` for an empty relative result. -/
def normalizeChars (path : List Char) : List Char :=
  if path = [] then ['.']
  else
    let isAbsolute := decide (path.head? = some '/')
    let trailingSep := decide (path.getLast? = some '/')
    let body := RSG.joinWithChar '/' (resolveSegs (!isAbsolute) [] (RSG.splitOnChar '/' path))
    let body := if body = [] ∧ isAbsolute = false then ['.'] else body
    let body := if body ≠ [] ∧ trailingSep = true then body ++ ['/'] else body
    if isAbsolute then '/' :: body else body

/-- Deno `std/path` posix `join` for the two-argument calls the script
makes: concatenate the non-empty parts with `/` and normalize; `"."` when
both parts are empty. -/
def join (a b : String) : String :=
  let joined :=
    if a.data = [] then b.data
    else if b.data = [] then a.data
    else a.data ++ '/' :: b.data
  if joined = [] then "." else String.mk (normalizeChars joined)

end DenoPath

namespace RSG

/-- `src/rsg.ts` 126-132 (`resolveFilePath`): every file is placed at
`join(projectDir, filename)` with `projectDir` as the working directory;
the filename is used as-is. -/
def resolveFilePath (projectDir filename : String) : String × String :=
  (DenoPath.join projectDir filename, projectDir)

/-- The filesystem: (path, content) pairs, most recent write first. -/
abbrev FS := List (String × String)

/-- `Deno.writeTextFile`: record the new content for the path. -/
def writeTextFile (fs : FS) (path content : String) : FS :=
  (path, content) :: fs

/-- The content the filesystem holds at a path: the most recent write. -/
def readFile (fs : FS) (path : String) : Option String :=
  (fs.find? (fun e => e.1 == path)).map Prod.snd

/-- The oracle slice driving `processFileNode` for one file: the response
to the drafting prompt and the responses to the successive audit prompts. -/
structure Job where
  spec : FileSpec
  draftResponse : String
  auditResponses : List String

/-- `src/rsg.ts` 207-256 (`processFileNode`, up to the write): the drafted
candidate is `getBacktipsContent` of the drafting response (line 221); the
audit loop revises it until approval; the approved content is written at
`resolveFilePath(filename)` (lines 253-255).  `none` when the oracle runs
out before approval (the real loop would still be running). -/
def processFileNode (projectDir : String) (fs : FS) (job : Job) : Option FS :=
  match auditLoop (getBacktipsContent job.draftResponse) job.auditResponses with
  | some res =>
    some (writeTextFile fs (resolveFilePath projectDir job.spec.filename).1 res.content)
  | none => none

/-- `src/rsg.ts` 283-290 (`traverseStructure`): process the parsed file
nodes in order, each one fully before the next. -/
def traverseStructure (projectDir : String) (fs : FS) : List Job → Option FS
  | [] => some fs
  | j :: js =>
    match processFileNode projectDir fs j with
    | some fs' => traverseStructure projectDir fs' js
    | none => none

/-- `src/rsg.ts` 86 : `const userPrompt = String(prompt("3) Enter your prompt: "));`
JS `String(x)` on `prompt`'s `string | null` result: `null` becomes the
literal string `"null"`. -/
def jsStringOfPrompt : Option String → String
  | none => "null"
  | some s => s

/-- `src/rsg.ts` 87-90: `if (!userPrompt) { ... Deno.exit(1); }` — the
fatal "No prompt received." exit fires exactly when the converted prompt
string is falsy, i.e. empty. -/
def noPromptFatal (promptResult : Option String) : Bool :=
  jsStringOfPrompt promptResult == ""

end RSG

namespace RSG

theorem splitOnChar_ne_nil (c : Char) (l : List Char) : splitOnChar c l ≠ [] := by
  induction l with
  | nil => simp [splitOnChar]
  | cons x xs ih =>
    simp only [splitOnChar]
    cases h : splitOnChar c xs with
    | nil => exact absurd h ih
    | cons hh tt => by_cases hx : x = c <;> simp [hx]

theorem splitOnChar_of_not_mem {c : Char} {l : List Char} (h : c ∉ l) :
    splitOnChar c l = [l] := by
  induction l with
  | nil => rfl
  | cons x xs ih =>
    have hx : x ≠ c := fun e => h (e ▸ List.mem_cons_self x xs)
    have hxs : c ∉ xs := fun m => h (List.mem_cons_of_mem _ m)
    simp [splitOnChar, ih hxs, hx]

theorem splitOnChar_append {c : Char} {n : List Char} (d : List Char) (h : c ∉ n) :
    splitOnChar c (n ++ c :: d) = n :: splitOnChar c d := by
  induction n with
  | nil =>
    simp only [List.nil_append, splitOnChar]
    cases hd : splitOnChar c d with
    | nil => exact absurd hd (splitOnChar_ne_nil c d)
    | cons hh tt => simp
  | cons x xs ih =>
    have hx : x ≠ c := fun e => h (e ▸ List.mem_cons_self x _)
    have hxs : c ∉ xs := fun m => h (List.mem_cons_of_mem _ m)
    simp only [List.cons_append, splitOnChar, List.append_eq]
    rw [ih hxs]
    simp [hx]

theorem joinWithChar_cons_head (c x : Char) (h : List Char) (t : List (List Char)) :
    joinWithChar c ((x :: h) :: t) = x :: joinWithChar c (h :: t) := by
  cases t <;> simp [joinWithChar]

theorem joinWithChar_splitOnChar (c : Char) (l : List Char) :
    joinWithChar c (splitOnChar c l) = l := by
  induction l with
  | nil => rfl
  | cons x xs ih =>
    simp only [splitOnChar]
    cases hd : splitOnChar c xs with
    | nil => exact absurd hd (splitOnChar_ne_nil c xs)
    | cons hh tt =>
      rw [hd] at ih
      by_cases hx : x = c
      · subst hx
        simp [joinWithChar, ih]
      · simp only [if_neg hx, joinWithChar_cons_head, ih]

theorem mem_dropWhile_of_not {p : Char → Bool} {x : Char} {l : List Char}
    (hx : p x = false) (h : x ∈ l) : x ∈ l.dropWhile p := by
  induction l with
  | nil => cases h
  | cons a t ih =>
    rw [List.dropWhile_cons]
    cases hpa : p a with
    | false => simpa [hpa] using h
    | true =>
      simp only [hpa, if_true]
      rcases List.mem_cons.mp h with rfl | hm
      · rw [hpa] at hx; cases hx
      · exact ih hm

theorem jsTrim_ne_nil_of_mem {x : Char} {l : List Char}
    (hx : x.isWhitespace = false) (h : x ∈ l) : jsTrim l ≠ [] := by
  unfold jsTrim
  intro hnil
  rw [List.reverse_eq_nil_iff] at hnil
  have h3 : x ∈ (l.dropWhile Char.isWhitespace).reverse.dropWhile Char.isWhitespace :=
    mem_dropWhile_of_not hx (List.mem_reverse.mpr (mem_dropWhile_of_not hx h))
  rw [hnil] at h3
  cases h3

end RSG

namespace RSG

theorem parseLine_split {n : List Char} (d : List Char) (hn : ':' ∉ n)
    (hfn : jsTrim n ≠ []) (hdn : jsTrim d ≠ []) :
    parseLine (n ++ ':' :: d) = some ⟨String.mk (jsTrim n), String.mk (jsTrim d)⟩ := by
  unfold parseLine
  rw [splitOnChar_append d hn]
  have hlen : (splitOnChar ':' d).length ≥ 1 := by
    cases hsp : splitOnChar ':' d with
    | nil => exact absurd hsp (splitOnChar_ne_nil ':' d)
    | cons a b => simp
  simp [hlen, joinWithChar_splitOnChar, hfn, hdn]

theorem parseLine_no_colon {l : List Char} (h : ':' ∉ l) : parseLine l = none := by
  unfold parseLine
  rw [splitOnChar_of_not_mem h]
  simp

theorem parseLine_empty_side {n : List Char} (d : List Char) (hn : ':' ∉ n)
    (h : jsTrim n = [] ∨ jsTrim d = []) : parseLine (n ++ ':' :: d) = none := by
  unfold parseLine
  rw [splitOnChar_append d hn]
  have hcond : ¬ (jsTrim n ≠ [] ∧ jsTrim (joinWithChar ':' (splitOnChar ':' d)) ≠ []) := by
    rw [joinWithChar_splitOnChar]
    rcases h with h | h <;> simp [h]
  simp [hcond]

theorem parseStructureText_single {n d : List Char} (hn : ':' ∉ n)
    (h1 : '\n' ∉ n) (h2 : '\n' ∉ d) (hfn : jsTrim n ≠ []) (hdn : jsTrim d ≠ []) :
    parseStructureText (String.mk (n ++ ':' :: d)) =
      [⟨String.mk (jsTrim n), String.mk (jsTrim d)⟩] := by
  have hline : '\n' ∉ n ++ ':' :: d := by
    intro hm
    rcases List.mem_append.mp hm with hmn | hmd
    · exact h1 hmn
    · rcases List.mem_cons.mp hmd with he | hm2
      · exact absurd he (by decide)
      · exact h2 hm2
  have hkeep : jsTrim (n ++ ':' :: d) ≠ [] :=
    jsTrim_ne_nil_of_mem (x := ':') (by decide) (by simp)
  unfold parseStructureText
  rw [show (String.mk (n ++ ':' :: d)).data = n ++ ':' :: d from rfl]
  rw [splitOnChar_of_not_mem hline]
  simp [hkeep, parseLine_split d hn hfn hdn, List.filterMap]

end RSG

namespace RSG

theorem getLast_getD_shift (r : String) (rs : List String) (c : String) :
    (((r :: rs).getLast?).map getBacktipsContent).getD c
      = ((rs.getLast?).map getBacktipsContent).getD (getBacktipsContent r) := by
  cases rs with
  | nil => simp
  | cons x xs =>
    obtain ⟨y, hy⟩ := Option.isSome_iff_exists.mp
      (List.getLast?_isSome.mpr (List.cons_ne_nil x xs))
    rw [List.getLast?_cons_cons, hy]
    simp

theorem auditLoop_rounds (c : String) (rs : List String) (rN : String)
    (hrs : ∀ r ∈ rs, containsApproved r = false) (hN : containsApproved rN = true) :
    auditLoop c (rs ++ [rN]) =
      some ⟨rs.length + 1, ((rs.getLast?).map getBacktipsContent).getD c⟩ := by
  induction rs generalizing c with
  | nil => simp [auditLoop, hN]
  | cons r rs ih =>
    have hr : containsApproved r = false := hrs r (List.mem_cons_self r rs)
    have hrs' : ∀ x ∈ rs, containsApproved x = false :=
      fun x hx => hrs x (List.mem_cons_of_mem r hx)
    simp only [List.cons_append, auditLoop, hr, Bool.false_eq_true, if_false, List.append_eq]
    rw [ih (getBacktipsContent r) hrs']
    simp [getLast_getD_shift]

theorem traverseStructure_last (pd : String) (jobs : List Job) (job : Job) :
    ∀ fs0 fsF res,
      auditLoop (getBacktipsContent job.draftResponse) job.auditResponses = some res →
      traverseStructure pd fs0 (jobs ++ [job]) = some fsF →
      readFile fsF (resolveFilePath pd job.spec.filename).1 = some res.content := by
  induction jobs with
  | nil =>
    intro fs0 fsF res hres htr
    simp only [List.nil_append, traverseStructure, processFileNode, hres] at htr
    obtain rfl := Option.some.inj htr
    simp [readFile, writeTextFile]
  | cons j js ih =>
    intro fs0 fsF res hres htr
    simp only [List.cons_append, traverseStructure] at htr
    cases hp : processFileNode pd fs0 j with
    | none => rw [hp] at htr; cases htr
    | some fs1 => rw [hp] at htr; exact ih fs1 fsF res hres htr

end RSG

/-- C1: when audit rounds 1..N-1 return non-approving replacement text and
round N returns an approving response, the audit loop performs exactly N
rounds, and `processFileNode` writes the candidate content that was in
flight when approval arrived: the extractor output of round N-1's response,
or the drafted (post-extraction) content when N = 1 — never round N's own
response text. -/
theorem claim_C1 (projectDir : String) (fs : RSG.FS) (spec : RSG.FileSpec)
    (draft : String) (rs : List String) (rN : String)
    (hrs : ∀ r ∈ rs, RSG.containsApproved r = false)
    (hN : RSG.containsApproved rN = true) :
    RSG.auditLoop (RSG.getBacktipsContent draft) (rs ++ [rN]) =
      some ⟨rs.length + 1,
        ((rs.getLast?).map RSG.getBacktipsContent).getD (RSG.getBacktipsContent draft)⟩ ∧
    RSG.processFileNode projectDir fs ⟨spec, draft, rs ++ [rN]⟩ =
      some (RSG.writeTextFile fs (RSG.resolveFilePath projectDir spec.filename).1
        (((rs.getLast?).map RSG.getBacktipsContent).getD (RSG.getBacktipsContent draft))) := by
  have h := RSG.auditLoop_rounds (RSG.getBacktipsContent draft) rs rN hrs hN
  refine ⟨h, ?_⟩
  simp [RSG.processFileNode, h]

/-- C1 witness: a concrete run with one revision round then one approving
round (N = 2); the written content is the extractor output of the first
audit response, not the approving response. -/
theorem claim_C1_witness :
    RSG.auditLoop (RSG.getBacktipsContent "draft") (["revise1"] ++ ["approved"]) =
      some ⟨["revise1"].length + 1,
        ((["revise1"].getLast?).map RSG.getBacktipsContent).getD
          (RSG.getBacktipsContent "draft")⟩ ∧
    RSG.processFileNode "/p" [] ⟨⟨"a.txt", "desc"⟩, "draft", ["revise1"] ++ ["approved"]⟩ =
      some (RSG.writeTextFile [] (RSG.resolveFilePath "/p" "a.txt").1
        (((["revise1"].getLast?).map RSG.getBacktipsContent).getD
          (RSG.getBacktipsContent "draft"))) :=
  claim_C1 "/p" [] ⟨"a.txt", "desc"⟩ "draft" ["revise1"] "approved" (by decide) (by decide)

/-- C2: one audit round treats the response as an approval iff its
lower-cased text contains the substring "approved" anywhere; on approval the
current candidate is frozen unchanged and the loop ends that round,
otherwise the extractor output of the entire response becomes the new
candidate for the continuing loop. -/
theorem claim_C2 (c r : String) (rs : List String) :
    (RSG.containsApproved r = true ↔ "approved".data <:+: (RSG.jsToLower r).data) ∧
    (RSG.containsApproved r = true → RSG.auditLoop c (r :: rs) = some ⟨1, c⟩) ∧
    (RSG.containsApproved r = false →
      RSG.auditLoop c (r :: rs) =
        (RSG.auditLoop (RSG.getBacktipsContent r) rs).map
          (fun a => ⟨a.rounds + 1, a.content⟩)) := by
  refine ⟨?_, ?_, ?_⟩
  · simp [RSG.containsApproved, RSG.jsIncludes]
  · intro h
    simp [RSG.auditLoop, h]
  · intro h
    simp only [RSG.auditLoop, h, Bool.false_eq_true, if_false]
    cases h2 : RSG.auditLoop (RSG.getBacktipsContent r) rs <;> simp [h2]

/-- C3: the extractor evaluated at a text that does contain a fenced block
(both triple-backtick markers at line starts): the fences are not stripped;
the input comes back whole, not the enclosed body. -/
theorem claim_C3_eval :
    RSG.getBacktipsContent "```\nbody\n```" = "```\nbody\n```" ∧
    RSG.getBacktipsContent "```\nbody\n```" ≠ "body" := ⟨rfl, by decide⟩

/-- C4: a listing line splits at its first colon: the first colon-delimited
segment trimmed is the filename, and the remaining segments rejoined with
colons and trimmed are the description; concretely "name: desc" yields
("name", "desc") and "a:b:c" yields ("a", "b:c"). -/
theorem claim_C4 :
    RSG.parseStructureText "name: desc" = [⟨"name", "desc"⟩] ∧
    RSG.parseStructureText "a:b:c" = [⟨"a", "b:c"⟩] ∧
    ∀ n d : List Char, ':' ∉ n → '\n' ∉ n → '\n' ∉ d →
      RSG.jsTrim n ≠ [] → RSG.jsTrim d ≠ [] →
      RSG.parseStructureText (String.mk (n ++ ':' :: d)) =
        [⟨String.mk (RSG.jsTrim n), String.mk (RSG.jsTrim d)⟩] := by
  refine ⟨by decide, by decide, ?_⟩
  intro n d hn h1 h2 hfn hdn
  exact RSG.parseStructureText_single hn h1 h2 hfn hdn

/-- C5: malformed lines are dropped whole: the empty text parses to the
empty sequence, a line with no colon yields no record, a line whose
filename or description side trims to empty yields no record, and every
record that is kept has a non-empty filename and description. -/
theorem claim_C5 :
    RSG.parseStructureText "" = [] ∧
    RSG.parseStructureText ": desc" = [] ∧
    RSG.parseStructureText "name:" = [] ∧
    (∀ l : List Char, ':' ∉ l → RSG.parseLine l = none) ∧
    (∀ n d : List Char, ':' ∉ n → (RSG.jsTrim n = [] ∨ RSG.jsTrim d = []) →
      RSG.parseLine (n ++ ':' :: d) = none) ∧
    (∀ l fs, RSG.parseLine l = some fs → fs.filename ≠ "" ∧ fs.description ≠ "") := by
  refine ⟨by decide, by decide, by decide, ?_, ?_, ?_⟩
  · intro l h
    exact RSG.parseLine_no_colon h
  · intro n d hn h
    exact RSG.parseLine_empty_side d hn h
  · intro l fs h
    have hne : ∀ x : List Char, x ≠ [] → String.mk x ≠ "" := by
      intro x hx e
      exact hx (by simpa using congrArg String.data e)
    unfold RSG.parseLine at h
    split at h
    · split at h
      · split at h
        · rename_i hc
          obtain rfl := Option.some.inj h
          exact ⟨hne _ hc.1, hne _ hc.2⟩
        · cases h
      · cases h
    · cases h

/-- C6: the listing text "a.txt: first\na.txt: second" parses to two
FileSpecs in line order with the duplicate filename preserved; and after
the generation loop processes a job list ending with a given job, the file
at that job's resolved path holds that last job's approved content — the
later write silently overwrites any earlier one at the same path. -/
theorem claim_C6 :
    RSG.parseStructureText "a.txt: first\na.txt: second" =
      [⟨"a.txt", "first"⟩, ⟨"a.txt", "second"⟩] ∧
    ∀ (pd : String) (jobs : List RSG.Job) (job : RSG.Job)
      (fs0 fsF : RSG.FS) (res : RSG.AuditResult),
      RSG.auditLoop (RSG.getBacktipsContent job.draftResponse) job.auditResponses =
        some res →
      RSG.traverseStructure pd fs0 (jobs ++ [job]) = some fsF →
      RSG.readFile fsF (RSG.resolveFilePath pd job.spec.filename).1 =
        some res.content := by
  refine ⟨by decide, ?_⟩
  intro pd jobs job fs0 fsF res h1 h2
  exact RSG.traverseStructure_last pd jobs job fs0 fsF res h1 h2

/-- C6 witness: two jobs for the same filename "a.txt", both approved on
their first audit round; after both are processed the file at the resolved
path holds the second job's content. -/
theorem claim_C6_witness :
    RSG.parseStructureText "a.txt: first\na.txt: second" =
      [⟨"a.txt", "first"⟩, ⟨"a.txt", "second"⟩] ∧
    RSG.readFile
      [("/p/a.txt", "second content"), ("/p/a.txt", "first content")]
      (RSG.resolveFilePath "/p" "a.txt").1 = some "second content" := by
  refine ⟨(claim_C6.1 : _), ?_⟩
  have h := claim_C6.2 "/p" [⟨⟨"a.txt", "first"⟩, "first content", ["approved"]⟩]
    ⟨⟨"a.txt", "second"⟩, "second content", ["approved"]⟩
    [] [("/p/a.txt", "second content"), ("/p/a.txt", "first content")] ⟨1, "second content"⟩
    (by decide) (by decide)
  exact h

/-- C7: when the completion endpoint answers with a non-success HTTP
status, `callGPT4` fails with an error that carries the response body, and
returns no completion text. -/
theorem claim_C7 (resp : RSG.HttpResponse) (h : resp.ok = false) :
    RSG.callGPT4 resp = Except.error ("Error calling the API: " ++ resp.body) ∧
    resp.body.data <:+: ("Error calling the API: " ++ resp.body).data ∧
    ∀ t, RSG.callGPT4 resp ≠ Except.ok t := by
  refine ⟨by simp [RSG.callGPT4, h], ?_, ?_⟩
  · exact ⟨"Error calling the API: ".data, [], by simp⟩
  · intro t hc
    rw [RSG.callGPT4] at hc
    simp [h] at hc

/-- C7 witness: a concrete non-ok response with body "boom". -/
theorem claim_C7_witness :
    RSG.callGPT4 ⟨false, "boom", "unused"⟩ =
      Except.error ("Error calling the API: " ++ "boom") ∧
    "boom".data <:+: ("Error calling the API: " ++ "boom").data ∧
    ∀ t, RSG.callGPT4 ⟨false, "boom", "unused"⟩ ≠ Except.ok t :=
  claim_C7 ⟨false, "boom", "unused"⟩ rfl

/-- C8: the extractor is the identity on every input (in particular on
every input without a fenced block), and it is idempotent. -/
theorem claim_C8 :
    (∀ s : String, RSG.getBacktipsContent s = s) ∧
    (∀ s : String,
      RSG.getBacktipsContent (RSG.getBacktipsContent s) = RSG.getBacktipsContent s) :=
  ⟨fun _ => rfl, fun _ => rfl⟩

/-- C9: a cancelled prompt read (null) is converted by `String(...)` to the
non-empty literal "null", which passes the emptiness check, so the run
proceeds with "null" as the user prompt; the fatal "no prompt" exit fires
exactly when the read yields the literally empty string. -/
theorem claim_C9 :
    RSG.jsStringOfPrompt none = "null" ∧
    RSG.noPromptFatal none = false ∧
    (∀ r : Option String, RSG.noPromptFatal r = true ↔ r = some "") := by
  refine ⟨rfl, rfl, ?_⟩
  intro r
  cases r with
  | none => simp [RSG.noPromptFatal, RSG.jsStringOfPrompt]
  | some s => simp [RSG.noPromptFatal, RSG.jsStringOfPrompt]

/-- C10: `resolveFilePath` is exactly the posix join of the project
directory with the filename — it adds no sanitization of its own — and a
filename beginning with "../" therefore resolves to, and is written at, a
path outside the project directory. -/
theorem claim_C10 :
    (∀ projectDir filename : String,
      RSG.resolveFilePath projectDir filename =
        (DenoPath.join projectDir filename, projectDir)) ∧
    (RSG.resolveFilePath "/base/project" "../evil.txt").1 = "/base/evil.txt" ∧
    ¬ ("/base/project/".data <+: "/base/evil.txt".data) ∧
    RSG.processFileNode "/base/project" []
        ⟨⟨"../evil.txt", "d"⟩, "code", ["approved"]⟩ =
      some [("/base/evil.txt", "code")] := by
  exact ⟨fun _ _ => rfl, by decide, by decide, by decide⟩
